import Mathlib

/-!
Shallow embedding of the Supertonic NVDA synth driver
(`addon/synthDrivers/supertonic.py`).

The driver's pure computations (text sanitization with offset remapping,
duration-to-byte alignment, delivery-unit grouping, speech-sequence parsing)
are translated into executable Lean functions.  The stateful worker/cancel
machinery is modelled as a trace semantics: the lock-guarded reads of the
generation counter and the outcomes of the external calls (the TTS engine,
the audio sink) are supplied by oracles, and an execution is the list of
observable actions (generation reads, the synthesize call, feeds to the
sink with their attached marker callbacks, marker/done notifications).
Machine floats are modelled as rationals; Python `int()` truncation and
list indexing (including negative indices and `IndexError`) are modelled
explicitly.
-/

namespace Supertonic

/-! ### Python primitives -/

/-- Python `int()` applied to a rational: truncation toward zero. -/
def pyInt (q : ℚ) : ℤ :=
  if 0 ≤ q then ⌊q⌋ else -⌊-q⌋

/-- Python list indexing `l[i]`: negative indices count from the end;
an index out of range raises `IndexError`, modelled as `none`. -/
def pyListGet (l : List ℕ) (i : ℤ) : Option ℕ :=
  let j : ℤ := if i < 0 then (l.length : ℤ) + i else i
  if 0 ≤ j ∧ j < (l.length : ℤ) then some (l.getD j.toNat 0) else none

/-- The ASCII whitespace characters recognised by Python `str.strip()`. -/
def isPySpace (c : Char) : Bool :=
  c == ' ' || c == '\t' || c == '\n' || c == '\r' || c == '\x0b' || c == '\x0c'

/-- Python `str.strip()`: drop leading and trailing whitespace. -/
def pyStrip (s : List Char) : List Char :=
  ((s.dropWhile isPySpace).reverse.dropWhile isPySpace).reverse

/-! ### Text sanitization and offset remapping (`_process_job`, lines 86-98)

The driver scans the text left to right; for each original index `i` it
records `remap[i] = len(new_text)` before appending the character when
`validate_text` accepts it, and finally records
`remap[len(text)] = len(new_text)`. -/

/-- The sanitization loop: `newText` is the output accumulated so far.
Returns the final sanitized text and the remap entries for the remaining
characters (the last entry is the terminal sentinel). -/
def sanitizeLoop (valid : Char → Bool) : List Char → List Char → List Char × List ℕ
  | [], newText => (newText, [newText.length])
  | c :: rest, newText =>
    let r := newText.length
    let newText' := if valid c then newText ++ [c] else newText
    let p := sanitizeLoop valid rest newText'
    (p.1, r :: p.2)

/-- Sanitize `text`: returns `(new_text, remap)` with
`remap.length = text.length + 1`. -/
def sanitize (valid : Char → Bool) (text : List Char) : List Char × List ℕ :=
  sanitizeLoop valid text []

/-! ### Marker remapping for a single marker (`_process_job`, lines 101-107)

`if offset > len(text): offset = len(text)` followed by the Python lookup
`remap[offset]`.  The offset is an arbitrary integer here so that the
defensive-clamping claim can be examined on out-of-range input. -/

/-- Remap a single marker offset exactly as the driver does: clamp above to
`len(text)`, then index the remap table with Python semantics. -/
def remapMarker (valid : Char → Bool) (text : List Char) (offset : ℤ) : Option ℕ :=
  let remapT := (sanitize valid text).2
  let off := if (text.length : ℤ) < offset then (text.length : ℤ) else offset
  pyListGet remapT off

/-! ### Alignment (`_process_job`, lines 141-165) -/

/-- Model of `np.cumsum`: running sums of a list. -/
def cumsum (l : List ℚ) : List ℚ :=
  (l.scanl (· + ·) 0).tail

/-- Target time for a marker: the branch structure of lines 146-152.
`cum` is the cumulative duration sequence. -/
def targetTime (cum : List ℚ) (charOffset : ℕ) : ℚ :=
  if cum.length ≤ charOffset then (cum.getLast?).getD 0
  else if charOffset = 0 then 0
  else cum.getD (charOffset - 1) 0

/-- Target byte for a marker (lines 154-159): `int(time * bytes_per_sec)`,
truncated down to a multiple of 2, then clamped above to the audio length. -/
def targetByte (cum : List ℚ) (bytesPerSec : ℕ) (audioLen : ℤ) (charOffset : ℕ) : ℤ :=
  let tb := pyInt (targetTime cum charOffset * (bytesPerSec : ℚ))
  let tb2 := tb - tb % 2
  if audioLen < tb2 then audioLen else tb2

/-- Delivery units (lines 161-165): group markers by their target byte
offset (`indices_by_offset`), then sort the offsets ascending.  Each unit
is `(byte_offset, marker ids at that offset in index-map order)`. -/
def deliveryUnits (indexMap : List (ℕ × ℤ)) (cum : List ℚ) (bytesPerSec : ℕ)
    (audioLen : ℤ) : List (ℤ × List ℤ) :=
  let targets := indexMap.map (fun p => (targetByte cum bytesPerSec audioLen p.1, p.2))
  let keys := (targets.map Prod.fst).toFinset.sort (· ≤ ·)
  keys.map (fun b => (b, (targets.filter (fun p => p.1 == b)).map Prod.snd))

/-- Modelled from the spec's wording of the alignment rule, for refinement
comparison with `targetByte`: target time chosen by the spec's case order
(`char_offset == 0` first, then `char_offset >= N` snapping to `C[N-1]`
or `0.0` when `N == 0`, otherwise `C[char_offset-1]`), then
`floor(time * sample_rate * 2)`, truncated down to the nearest multiple
of 2 and clamped to the audio buffer length. -/
def specTargetByte (cum : List ℚ) (sampleRate : ℕ) (audioLen : ℤ) (charOffset : ℕ) : ℤ :=
  let t : ℚ :=
    if charOffset = 0 then 0
    else if cum.length ≤ charOffset then
      (if cum.length = 0 then 0 else (cum.getLast?).getD 0)
    else cum.getD (charOffset - 1) 0
  let b := ⌊t * ((sampleRate : ℚ) * 2)⌋
  min (b - b % 2) audioLen

/-! ### The speech-sequence parser (`speak`, lines 210-228) -/

/-- An item of an NVDA speech sequence: a plain string, an `IndexCommand`
carrying a marker id, or any other speech command (pitch, break, ...). -/
inductive SpeechItem where
  | text (s : List Char)
  | indexCmd (idx : ℤ)
  | otherCommand
  deriving DecidableEq

/-- Whether an item is neither a plain string nor an `IndexCommand`. -/
def SpeechItem.isOther : SpeechItem → Bool
  | SpeechItem.otherCommand => true
  | _ => false

/-- The accumulation loop of `speak`: strings are concatenated, each
`IndexCommand` records `(len(text so far), index)`, anything else is
skipped.  Returns the final `(text, index_map)`. -/
def parseSpeech : List SpeechItem → List Char → List (ℕ × ℤ) → List Char × List (ℕ × ℤ)
  | [], text, imap => (text, imap)
  | SpeechItem.text s :: rest, text, imap => parseSpeech rest (text ++ s) imap
  | SpeechItem.indexCmd i :: rest, text, imap =>
    parseSpeech rest text (imap ++ [(text.length, i)])
  | SpeechItem.otherCommand :: rest, text, imap => parseSpeech rest text imap

/-- A queued synthesis request: the tuple
`(generation, text, index_map, voice, rate, quality)` put on the job queue. -/
structure Job where
  gen : ℕ
  text : List Char
  indexMap : List (ℕ × ℤ)
  voice : String
  rate : ℕ
  quality : ℕ
  deriving DecidableEq

/-- Observable effect of a `speak` call. -/
inductive SpeakAct where
  | doneSpeaking
  | enqueue (j : Job)
  deriving DecidableEq

/-- The `speak` entry point: parse the sequence; if the text is empty after stripping
whitespace, notify done speaking and return without enqueuing; otherwise
enqueue a job tagged with the current generation. -/
def speak (gen : ℕ) (voice : String) (rate quality : ℕ) (seq : List SpeechItem) :
    List SpeakAct :=
  let p := parseSpeech seq [] []
  if pyStrip p.1 = [] then [SpeakAct.doneSpeaking]
  else [SpeakAct.enqueue (Job.mk gen p.1 p.2 voice rate quality)]

/-- The generation bump performed by `cancel` (line 232). -/
def cancelGen (g : ℕ) : ℕ := g + 1

/-! ### Trace semantics of the worker (`_worker` and `_process_job`)

The generation counter is shared with the control path, so each
lock-guarded read may observe a different value: the reads are an oracle
`gens : ℕ → ℕ` (the k-th read of the job returns `gens k`).  The sink may
fail on any feed: `feedFails f` tells whether the f-th `player.feed` call
of the job raises.  The synthesize call is external: its outcome is either
`none` (it raises) or `some (durations, sample count)`. -/

/-- An observable action of the worker. -/
inductive Act where
  | read (g : ℕ)
  | synth
  | feed (lo hi : ℤ) (cbs : List ℤ)
  | indexReached (idx : ℤ)
  | idle
  | doneSpeaking
  | logError
  deriving DecidableEq

/-- The delivery loop of `_process_job` (lines 166-205): walk the sorted
delivery units; before each iteration re-read the generation and return on
mismatch; fire offset-0 markers immediately; feed the audio slice up to
each positive offset with the unit's markers attached as the completion
callback; after the loop feed the trailing remainder (no callback), wait
for the sink to drain, and notify done speaking.  Returns the action trace
and whether an exception was raised (by a failing feed). -/
def feedLoop (jobGen : ℕ) (gens : ℕ → ℕ) (feedFails : ℕ → Bool) (audioLen : ℤ) :
    List (ℤ × List ℤ) → ℤ → ℕ → ℕ → List Act × Bool
  | [], lastFed, _k, f =>
    if lastFed < audioLen then
      if feedFails f then ([Act.feed lastFed audioLen []], true)
      else ([Act.feed lastFed audioLen [], Act.idle, Act.doneSpeaking], false)
    else ([Act.idle, Act.doneSpeaking], false)
  | (offset, idxs) :: rest, lastFed, k, f =>
    if gens k ≠ jobGen then ([Act.read (gens k)], false)
    else if offset = 0 then
      let r := feedLoop jobGen gens feedFails audioLen rest lastFed (k + 1) f
      (Act.read (gens k) :: (idxs.map Act.indexReached ++ r.1), r.2)
    else if lastFed < offset then
      if feedFails f then ([Act.read (gens k), Act.feed lastFed offset idxs], true)
      else
        let r := feedLoop jobGen gens feedFails audioLen rest offset (k + 1) (f + 1)
        (Act.read (gens k) :: Act.feed lastFed offset idxs :: r.1, r.2)
    else
      let r := feedLoop jobGen gens feedFails audioLen rest lastFed (k + 1) f
      (Act.read (gens k) :: (idxs.map Act.indexReached ++ r.1), r.2)

/-- The body of `_process_job` (lines 83-205): sanitize and remap, check the
generation, synthesize (an exception propagates to the worker), check the
generation again, then run the delivery loop on the grouped units.
`gens 0` and `gens 1` are the two checks of lines 116 and 136; the
delivery loop reads `gens 2`, `gens 3`, ...  The audio buffer holds
16-bit samples, so its byte length is twice the sample count. -/
def processJobRun (jobGen : ℕ) (gens : ℕ → ℕ) (feedFails : ℕ → Bool) (valid : Char → Bool)
    (text : List Char) (indexMap : List (ℕ × ℤ)) (synthOut : Option (List ℚ × ℕ))
    (sampleRate : ℕ) : List Act × Bool :=
  let st := sanitize valid text
  let newMap := indexMap.map (fun p =>
    (st.2.getD (if text.length < p.1 then text.length else p.1) 0, p.2))
  if gens 0 ≠ jobGen then ([Act.read (gens 0)], false)
  else
    match synthOut with
    | none => ([Act.read (gens 0), Act.synth], true)
    | some (durs, numSamples) =>
      let audioLen : ℤ := 2 * numSamples
      if gens 1 ≠ jobGen then ([Act.read (gens 0), Act.synth, Act.read (gens 1)], false)
      else
        let units := deliveryUnits newMap (cumsum durs) (sampleRate * 2) audioLen
        let r := feedLoop jobGen gens feedFails audioLen units 0 2 0
        (Act.read (gens 0) :: Act.synth :: Act.read (gens 1) :: r.1, r.2)

/-- The per-job oracles: generation reads (index 0 is the dequeue check of
`_worker`, lines 70-73; the rest are passed to `_process_job`), feed
failures, and the synthesize outcome. -/
structure JobEnv where
  gens : ℕ → ℕ
  feedFails : ℕ → Bool
  synthOut : Option (List ℚ × ℕ)

/-- One iteration of `_worker` for a dequeued job: drop it when its
generation is stale; otherwise run `_process_job`, and on an exception log
the error and notify done speaking. -/
def workerStep (valid : Char → Bool) (sampleRate : ℕ) (env : JobEnv) (job : Job) :
    List Act :=
  if job.gen ≠ env.gens 0 then [Act.read (env.gens 0)]
  else
    let r := processJobRun job.gen (fun k => env.gens (k + 1)) env.feedFails valid
      job.text job.indexMap env.synthOut sampleRate
    Act.read (env.gens 0) :: (r.1 ++ if r.2 then [Act.logError, Act.doneSpeaking] else [])

/-- The worker loop over the queued jobs, each with its oracles. -/
def workerRun (valid : Char → Bool) (sampleRate : ℕ) : List (JobEnv × Job) → List Act
  | [] => []
  | (env, job) :: rest =>
    workerStep valid sampleRate env job ++ workerRun valid sampleRate rest

/-! ### Trace predicates -/

/-- Scans a trace and checks that the generation was (re-)read before
every feed call: `armed` records whether a read has happened since the
last feed.  This is the literal reading of the spec's checkpoint rule. -/
def checkpointedFeeds : List Act → Bool → Bool
  | [], _ => true
  | Act.read _ :: rest, _ => checkpointedFeeds rest true
  | Act.feed _ _ _ :: rest, armed => armed && checkpointedFeeds rest false
  | _ :: rest, armed => checkpointedFeeds rest armed

/-- Like `checkpointedFeeds` but only requires a fresh read before feeds
that carry marker callbacks (the delivery-loop feeds); the bare trailing
remainder feed is exempt. -/
def markerFeedsCheckpointed : List Act → Bool → Bool
  | [], _ => true
  | Act.read _ :: rest, _ => markerFeedsCheckpointed rest true
  | Act.feed _ _ cbs :: rest, armed => (cbs.isEmpty || armed) && markerFeedsCheckpointed rest false
  | _ :: rest, armed => markerFeedsCheckpointed rest armed

/-- Checks that the first read of a generation different from `jobGen`
(if any) is the very last action of the trace: after observing a stale
generation the job emits nothing further. -/
def staleReadTerminal (jobGen : ℕ) : List Act → Bool
  | [] => true
  | Act.read g :: rest => if g = jobGen then staleReadTerminal jobGen rest else rest.isEmpty
  | _ :: rest => staleReadTerminal jobGen rest

/-! ### Properties of the sanitizer -/

theorem sanitizeLoop_fst (valid : Char → Bool) (cs : List Char) :
    ∀ acc, (sanitizeLoop valid cs acc).1 = acc ++ cs.filter valid := by
  induction cs with
  | nil => intro acc; simp [sanitizeLoop]
  | cons c rest ih =>
    intro acc
    by_cases h : valid c <;> simp [sanitizeLoop, h, List.filter_cons, ih]

theorem sanitizeLoop_snd_length (valid : Char → Bool) (cs : List Char) :
    ∀ acc, (sanitizeLoop valid cs acc).2.length = cs.length + 1 := by
  induction cs with
  | nil => intro acc; simp [sanitizeLoop]
  | cons c rest ih => intro acc; simp [sanitizeLoop, ih]

theorem sanitizeLoop_snd_getD (valid : Char → Bool) (cs : List Char) :
    ∀ acc i, i ≤ cs.length →
      (sanitizeLoop valid cs acc).2.getD i 0 =
        acc.length + ((cs.take i).filter valid).length := by
  induction cs with
  | nil =>
    intro acc i hi
    have : i = 0 := Nat.le_zero.mp hi
    simp [sanitizeLoop, this]
  | cons c rest ih =>
    intro acc i hi
    cases i with
    | zero => simp [sanitizeLoop]
    | succ j =>
      have hj : j ≤ rest.length := Nat.succ_le_succ_iff.mp hi
      have hcons : (sanitizeLoop valid (c :: rest) acc).2 =
          acc.length :: (sanitizeLoop valid rest (if valid c then acc ++ [c] else acc)).2 := rfl
      rw [hcons, List.getD_cons_succ]
      by_cases h : valid c
      · rw [if_pos h, ih (acc ++ [c]) j hj, List.take_succ_cons, List.filter_cons, if_pos h]
        simp only [List.length_append, List.length_cons, List.length_nil]
        omega
      · rw [if_neg h, ih acc j hj, List.take_succ_cons, List.filter_cons, if_neg h]

theorem sanitize_fst (valid : Char → Bool) (text : List Char) :
    (sanitize valid text).1 = text.filter valid := by
  simp [sanitize, sanitizeLoop_fst]

theorem sanitize_snd_length (valid : Char → Bool) (text : List Char) :
    (sanitize valid text).2.length = text.length + 1 := by
  simp [sanitize, sanitizeLoop_snd_length]

theorem sanitize_snd_getD (valid : Char → Bool) (text : List Char) (i : ℕ)
    (hi : i ≤ text.length) :
    (sanitize valid text).2.getD i 0 = ((text.take i).filter valid).length := by
  simpa using sanitizeLoop_snd_getD valid text [] i hi

theorem filter_take_length_mono {α : Type} (p : α → Bool) (l : List α) {i j : ℕ}
    (h : i ≤ j) :
    ((l.take i).filter p).length ≤ ((l.take j).filter p).length := by
  have h1 : l.take i = (l.take j).take i := by
    rw [List.take_take, min_eq_left h]
  rw [h1]
  exact ((List.take_sublist i (l.take j)).filter p).length_le

/-- Claim C3: for every input text, the remap table produced by
sanitization is non-decreasing, its entry at `len(original_text)` equals
`len(sanitized_text)`, every entry at an offset in `[0, len(original)]`
lies in `[0, len(sanitized)]` (the lower bound holds since entries are
naturals), and when every character is invalid the sanitized text is
empty and every offset remaps to 0. -/
theorem C3_remap_invariants (valid : Char → Bool) (text : List Char) :
    (∀ i j, i ≤ j → j ≤ text.length →
      (sanitize valid text).2.getD i 0 ≤ (sanitize valid text).2.getD j 0) ∧
    (sanitize valid text).2.getD text.length 0 = (sanitize valid text).1.length ∧
    (∀ o, o ≤ text.length →
      (sanitize valid text).2.getD o 0 ≤ (sanitize valid text).1.length) ∧
    ((∀ c ∈ text, valid c = false) →
      (sanitize valid text).1 = [] ∧
      ∀ o, o ≤ text.length → (sanitize valid text).2.getD o 0 = 0) := by
  refine ⟨?_, ?_, ?_, ?_⟩
  · intro i j hij hj
    rw [sanitize_snd_getD valid text i (le_trans hij hj), sanitize_snd_getD valid text j hj]
    exact filter_take_length_mono valid text hij
  · rw [sanitize_snd_getD valid text _ le_rfl, List.take_length, sanitize_fst]
  · intro o ho
    rw [sanitize_snd_getD valid text o ho, sanitize_fst]
    have h := filter_take_length_mono valid text ho (j := text.length)
    rwa [List.take_length] at h
  · intro hall
    have hf : text.filter valid = [] :=
      List.filter_eq_nil_iff.mpr (fun c hc => by simp [hall c hc])
    refine ⟨by rw [sanitize_fst, hf], ?_⟩
    intro o ho
    rw [sanitize_snd_getD valid text o ho]
    have h : (text.take o).filter valid = [] :=
      List.filter_eq_nil_iff.mpr (fun c hc => by simp [hall c (List.take_subset _ _ hc)])
    simp [h]

/-- Witness for C3 at a concrete input: the remap entry at the end of
the text equals the sanitized length. -/
theorem C3_remap_invariants_witness :
    (sanitize (fun c => c == 'A') ['A', 'b']).2.getD 2 0 =
      (sanitize (fun c => c == 'A') ['A', 'b']).1.length :=
  (C3_remap_invariants (fun c => c == 'A') ['A', 'b']).2.1

/-- Claim C9: sanitizing a text every character of which passes the
validity predicate returns it unchanged with an identity remap table. -/
theorem C9_identity_remap (valid : Char → Bool) (text : List Char)
    (h : ∀ c ∈ text, valid c = true) :
    (sanitize valid text).1 = text ∧
    ∀ i, i ≤ text.length → (sanitize valid text).2.getD i 0 = i := by
  constructor
  · rw [sanitize_fst]
    exact List.filter_eq_self.mpr h
  · intro i hi
    rw [sanitize_snd_getD valid text i hi]
    have hs : (text.take i).filter valid = text.take i :=
      List.filter_eq_self.mpr (fun c hc => h c (List.take_subset _ _ hc))
    rw [hs, List.length_take]
    exact min_eq_left hi

/-- Witness for C9: concrete all-valid text. -/
theorem C9_identity_remap_witness :
    (∀ c ∈ (['A', 'B'] : List Char), (fun _ => true) c = true) ∧
    ((sanitize (fun _ => true) ['A', 'B']).1 = ['A', 'B'] ∧
      ∀ i, i ≤ (['A', 'B'] : List Char).length →
        (sanitize (fun _ => true) ['A', 'B']).2.getD i 0 = i) :=
  ⟨by decide, C9_identity_remap (fun _ => true) ['A', 'B'] (by decide)⟩

/-! ### Marker-offset clamping (C6) -/

/-- Counterexample to claim C6 as stated: the code clamps a marker offset
only from above (`if offset > len(text): offset = len(text)`), so a
negative offset is passed straight to the Python list lookup; for text
`"A"` (remap table of length 2) the offset `-3` indexes position
`2 + (-3) = -1`, which is out of range and raises `IndexError` (`none`),
contradicting "never raises". -/
theorem C6_clamp_counterexample :
    remapMarker (fun _ => true) ['A'] (-3) = none := by decide

/-- Claim C6 (amended): the marker's character offset is clamped only
from above to `len(text)` before the remap-table lookup, so every
non-negative offset (in particular any offset past the end of the text)
never raises and resolves to the remap entry at `min(offset, len(text))`;
negative offsets are not clamped. -/
theorem C6_clamp_amended (valid : Char → Bool) (text : List Char) (offset : ℤ)
    (h : 0 ≤ offset) :
    remapMarker valid text offset =
      some ((sanitize valid text).2.getD (min offset.toNat text.length) 0) := by
  have hlen := sanitize_snd_length valid text
  simp only [remapMarker, pyListGet, hlen]
  rcases le_or_lt offset (text.length : ℤ) with hle | hlt
  · rw [if_neg (not_lt.mpr hle), if_neg (by omega : ¬(offset < 0)),
      if_pos (by constructor <;> omega : 0 ≤ offset ∧ offset < ((text.length + 1 : ℕ) : ℤ))]
    have ht : offset.toNat ≤ text.length := by omega
    rw [min_eq_left ht]
  · rw [if_pos hlt, if_neg (by omega : ¬((text.length : ℤ) < 0)),
      if_pos (by constructor <;> omega :
        0 ≤ (text.length : ℤ) ∧ (text.length : ℤ) < ((text.length + 1 : ℕ) : ℤ))]
    have ht : min offset.toNat text.length = text.length := by omega
    rw [ht]
    have ht2 : (text.length : ℤ).toNat = text.length := by omega
    rw [ht2]

/-- Witness for the amended C6 at a concrete non-negative out-of-range
offset. -/
theorem C6_clamp_amended_witness :
    (0 : ℤ) ≤ 5 ∧
    remapMarker (fun _ => true) ['A'] 5 =
      some ((sanitize (fun _ => true) ['A']).2.getD (min (5 : ℤ).toNat 1) 0) :=
  ⟨by decide, C6_clamp_amended (fun _ => true) ['A'] 5 (by decide)⟩

/-! ### speak (C7, C10) -/

/-- Claim C7: if the concatenated text of the speech sequence is empty
after stripping whitespace, `speak` emits exactly a done-speaking
notification and enqueues no job. -/
theorem C7_empty_after_strip (gen : ℕ) (voice : String) (rate quality : ℕ)
    (seq : List SpeechItem) (h : pyStrip (parseSpeech seq [] []).1 = []) :
    speak gen voice rate quality seq = [SpeakAct.doneSpeaking] := by
  simp only [speak]
  rw [if_pos h]

/-- Witness for C7: a sequence whose only string is whitespace. -/
theorem C7_empty_after_strip_witness :
    pyStrip (parseSpeech [SpeechItem.text [' ', '\t'], SpeechItem.indexCmd 3] [] []).1 = [] ∧
    speak 0 "M1" 27 5 [SpeechItem.text [' ', '\t'], SpeechItem.indexCmd 3] =
      [SpeakAct.doneSpeaking] :=
  ⟨by decide, C7_empty_after_strip 0 "M1" 27 5 _ (by decide)⟩

/-- Claim C10: speech-sequence items that are neither plain strings nor
`IndexCommand`s are ignored by the parser: removing them changes neither
the accumulated text nor the marker index map (in particular they shift
no character offsets). -/
theorem C10_other_items_ignored (seq : List SpeechItem) (text : List Char)
    (imap : List (ℕ × ℤ)) :
    parseSpeech (seq.filter (fun i => ! i.isOther)) text imap =
      parseSpeech seq text imap := by
  induction seq generalizing text imap with
  | nil => rfl
  | cons item rest ih =>
    cases item with
    | text s => simpa [parseSpeech, SpeechItem.isOther] using ih (text ++ s) imap
    | indexCmd i =>
      simpa [parseSpeech, SpeechItem.isOther] using ih text (imap ++ [(text.length, i)])
    | otherCommand => simpa [parseSpeech, SpeechItem.isOther] using ih text imap

/-! ### Alignment properties (C1, C4) -/

theorem qlist_getD_nonneg (l : List ℚ) (h : ∀ q ∈ l, 0 ≤ q) :
    ∀ n, 0 ≤ l.getD n 0 := by
  induction l with
  | nil => intro n; simp
  | cons a m ih =>
    intro n
    cases n with
    | zero => rw [List.getD_cons_zero]; exact h a (by simp)
    | succ k =>
      rw [List.getD_cons_succ]
      exact ih (fun q hq => h q (by simp [hq])) k

theorem qlist_getLastD_nonneg (l : List ℚ) (h : ∀ q ∈ l, 0 ≤ q) :
    0 ≤ (l.getLast?).getD 0 := by
  cases hl : l.getLast? with
  | none => simp
  | some x =>
    simp only [Option.getD_some]
    exact h x (List.mem_of_mem_getLast? hl)

theorem targetTime_nonneg (cum : List ℚ) (h : ∀ q ∈ cum, 0 ≤ q) (charOffset : ℕ) :
    0 ≤ targetTime cum charOffset := by
  unfold targetTime
  split_ifs
  · exact qlist_getLastD_nonneg cum h
  · exact le_refl 0
  · exact qlist_getD_nonneg cum h _

theorem pyInt_eq_floor (q : ℚ) (h : 0 ≤ q) : pyInt q = ⌊q⌋ := by
  simp only [pyInt]
  rw [if_pos h]

/-- The code's branch order (`char_offset >= N` first) computes the same
target time as the spec's branch order (`char_offset == 0` first). -/
theorem targetTime_eq_spec_cases (cum : List ℚ) (charOffset : ℕ) :
    targetTime cum charOffset =
      (if charOffset = 0 then (0 : ℚ)
       else if cum.length ≤ charOffset then
         (if cum.length = 0 then 0 else (cum.getLast?).getD 0)
       else cum.getD (charOffset - 1) 0) := by
  by_cases h0 : charOffset = 0
  · by_cases hn : cum.length ≤ charOffset
    · have he : cum = [] := by
        subst h0
        exact List.length_eq_zero.mp (Nat.le_zero.mp hn)
      subst he
      simp [targetTime, h0]
    · simp [targetTime, h0, hn]
      intro he
      subst he
      simp at hn
  · by_cases hn : cum.length ≤ charOffset
    · by_cases hz : cum.length = 0
      · have he : cum = [] := List.length_eq_zero.mp hz
        subst he
        simp [targetTime, h0]
      · simp [targetTime, h0, hn, hz]
    · simp [targetTime, h0, hn]

/-- Claim C1: for non-negative cumulative durations, the code's target
byte computation agrees with the spec's description (case split on the
marker offset, `floor(time * sample_rate * 2)`, truncation to a multiple
of 2, clamping to the buffer length); and the spec's concrete example —
text `"AB"`, one marker at offset 1, durations `[0.5, 0.5]`, sample rate
100, 2-byte samples, 200 audio bytes — yields exactly one Delivery Unit
at byte offset 100. -/
theorem C1_alignment (cum : List ℚ) (sampleRate : ℕ) (audioLen : ℤ) (charOffset : ℕ)
    (h : ∀ q ∈ cum, 0 ≤ q) :
    targetByte cum (sampleRate * 2) audioLen charOffset =
      specTargetByte cum sampleRate audioLen charOffset ∧
    deliveryUnits [(1, 7)] (cumsum [(1 : ℚ)/2, 1/2]) (100 * 2) 200 = [(100, [7])] := by
  constructor
  · have hcast : ((sampleRate * 2 : ℕ) : ℚ) = (sampleRate : ℚ) * 2 := by push_cast; ring
    have hnn : 0 ≤ targetTime cum charOffset * ((sampleRate * 2 : ℕ) : ℚ) :=
      mul_nonneg (targetTime_nonneg cum h charOffset) (by positivity)
    have hb : pyInt (targetTime cum charOffset * ((sampleRate * 2 : ℕ) : ℚ)) =
        ⌊(if charOffset = 0 then (0 : ℚ)
          else if cum.length ≤ charOffset then
            (if cum.length = 0 then 0 else (cum.getLast?).getD 0)
          else cum.getD (charOffset - 1) 0) * ((sampleRate : ℚ) * 2)⌋ := by
      rw [pyInt_eq_floor _ hnn, targetTime_eq_spec_cases, hcast]
    simp only [targetByte, specTargetByte]
    rw [hb]
    split_ifs with hc <;> omega
  · have h100 : targetByte (cumsum [(1 : ℚ)/2, 1/2]) (100 * 2) 200 1 = 100 := by
      norm_num [targetByte, targetTime, pyInt, cumsum, List.scanl]
    simp only [deliveryUnits, List.map_cons, List.map_nil]
    rw [h100]
    simp [Finset.sort_singleton]

/-- Witness for C1 at the spec example's cumulative durations. -/
theorem C1_alignment_witness :
    (∀ q ∈ cumsum [(1 : ℚ)/2, 1/2], 0 ≤ q) ∧
    (targetByte (cumsum [(1 : ℚ)/2, 1/2]) (100 * 2) 200 1 =
        specTargetByte (cumsum [(1 : ℚ)/2, 1/2]) 100 200 1 ∧
      deliveryUnits [(1, 7)] (cumsum [(1 : ℚ)/2, 1/2]) (100 * 2) 200 = [(100, [7])]) :=
  ⟨by norm_num [cumsum, List.scanl],
    C1_alignment (cumsum [(1 : ℚ)/2, 1/2]) 100 200 1 (by norm_num [cumsum, List.scanl])⟩

theorem targetByte_even (cum : List ℚ) (bytesPerSec : ℕ) (audioLen : ℤ) (charOffset : ℕ)
    (hA : 2 ∣ audioLen) : 2 ∣ targetByte cum bytesPerSec audioLen charOffset := by
  simp only [targetByte]
  split_ifs with hc
  · exact hA
  · omega

/-- Claim C4: the Delivery Units are strictly increasing in byte offset;
every byte offset is a multiple of the sample byte width 2 (the audio
buffer length is always even since each 16-bit sample is 2 bytes); and
two markers at the same character offset land in the same unit. -/
theorem C4_delivery_units (indexMap : List (ℕ × ℤ)) (cum : List ℚ) (bytesPerSec : ℕ)
    (audioLen : ℤ) (hA : 2 ∣ audioLen) :
    List.Sorted (· < ·) ((deliveryUnits indexMap cum bytesPerSec audioLen).map Prod.fst) ∧
    (∀ u ∈ deliveryUnits indexMap cum bytesPerSec audioLen, 2 ∣ u.1) ∧
    (∀ o i1 i2, (o, i1) ∈ indexMap → (o, i2) ∈ indexMap →
      ∃ u ∈ deliveryUnits indexMap cum bytesPerSec audioLen,
        i1 ∈ u.2 ∧ i2 ∈ u.2) := by
  refine ⟨?_, ?_, ?_⟩
  · have hfst : (deliveryUnits indexMap cum bytesPerSec audioLen).map Prod.fst =
        ((indexMap.map (fun p => (targetByte cum bytesPerSec audioLen p.1, p.2))).map
          Prod.fst).toFinset.sort (· ≤ ·) := by
      simp only [deliveryUnits]
      rw [List.map_map]
      exact List.map_id' _
    rw [hfst]
    exact Finset.sort_sorted_lt _
  · intro u hu
    simp only [deliveryUnits, List.mem_map] at hu
    obtain ⟨b, hb, rfl⟩ := hu
    rw [Finset.mem_sort, List.mem_toFinset, List.mem_map] at hb
    obtain ⟨q, hq, rfl⟩ := hb
    rw [List.mem_map] at hq
    obtain ⟨p, _, rfl⟩ := hq
    exact targetByte_even cum bytesPerSec audioLen p.1 hA
  · intro o i1 i2 h1 h2
    refine ⟨(targetByte cum bytesPerSec audioLen o,
      ((indexMap.map (fun p => (targetByte cum bytesPerSec audioLen p.1, p.2))).filter
        (fun p => p.1 == targetByte cum bytesPerSec audioLen o)).map Prod.snd),
      ?_, ?_, ?_⟩
    · simp only [deliveryUnits, List.mem_map]
      refine ⟨targetByte cum bytesPerSec audioLen o, ?_, rfl⟩
      rw [Finset.mem_sort, List.mem_toFinset, List.mem_map]
      exact ⟨(targetByte cum bytesPerSec audioLen o, i1),
        List.mem_map.mpr ⟨(o, i1), h1, rfl⟩, rfl⟩
    · exact List.mem_map.mpr ⟨(targetByte cum bytesPerSec audioLen o, i1),
        List.mem_filter.mpr ⟨List.mem_map.mpr ⟨(o, i1), h1, rfl⟩, by simp⟩, rfl⟩
    · exact List.mem_map.mpr ⟨(targetByte cum bytesPerSec audioLen o, i2),
        List.mem_filter.mpr ⟨List.mem_map.mpr ⟨(o, i2), h2, rfl⟩, by simp⟩, rfl⟩

/-- Witness for C4 at concrete inputs (even buffer length 200). -/
theorem C4_delivery_units_witness :
    (2 : ℤ) ∣ 200 ∧
    (List.Sorted (· < ·) ((deliveryUnits [(1, 7)] [] 0 200).map Prod.fst) ∧
      (∀ u ∈ deliveryUnits [(1, 7)] [] 0 200, 2 ∣ u.1) ∧
      (∀ o i1 i2, (o, i1) ∈ ([(1, 7)] : List (ℕ × ℤ)) → (o, i2) ∈ ([(1, 7)] : List (ℕ × ℤ)) →
        ∃ u ∈ deliveryUnits [(1, 7)] [] 0 200, i1 ∈ u.2 ∧ i2 ∈ u.2)) :=
  ⟨⟨100, by norm_num⟩, C4_delivery_units [(1, 7)] [] 0 200 ⟨100, by norm_num⟩⟩

/-! ### Trace lemmas (C2, C5, C8) -/

theorem mfc_indexReached_append (l : List ℤ) (rest : List Act) (a : Bool) :
    markerFeedsCheckpointed (l.map Act.indexReached ++ rest) a =
      markerFeedsCheckpointed rest a := by
  induction l with
  | nil => rfl
  | cons x xs ih => exact ih

theorem srt_indexReached_append (jobGen : ℕ) (l : List ℤ) (rest : List Act) :
    staleReadTerminal jobGen (l.map Act.indexReached ++ rest) =
      staleReadTerminal jobGen rest := by
  induction l with
  | nil => rfl
  | cons x xs ih => exact ih

theorem feedLoop_mfc (jobGen : ℕ) (gens : ℕ → ℕ) (feedFails : ℕ → Bool) (audioLen : ℤ)
    (units : List (ℤ × List ℤ)) :
    ∀ (lastFed : ℤ) (k f : ℕ) (a : Bool),
      markerFeedsCheckpointed
        (feedLoop jobGen gens feedFails audioLen units lastFed k f).1 a = true := by
  induction units with
  | nil =>
    intro lastFed k f a
    simp only [feedLoop]
    split_ifs <;> simp [markerFeedsCheckpointed]
  | cons u rest ih =>
    intro lastFed k f a
    obtain ⟨offset, idxs⟩ := u
    simp only [feedLoop]
    split_ifs <;> simp [markerFeedsCheckpointed, mfc_indexReached_append, ih]

theorem feedLoop_srt (jobGen : ℕ) (gens : ℕ → ℕ) (feedFails : ℕ → Bool) (audioLen : ℤ)
    (units : List (ℤ × List ℤ)) :
    ∀ (lastFed : ℤ) (k f : ℕ),
      staleReadTerminal jobGen
        (feedLoop jobGen gens feedFails audioLen units lastFed k f).1 = true := by
  induction units with
  | nil =>
    intro lastFed k f
    simp only [feedLoop]
    split_ifs <;> simp [staleReadTerminal]
  | cons u rest ih =>
    intro lastFed k f
    obtain ⟨offset, idxs⟩ := u
    simp only [feedLoop]
    split_ifs with h1 h2 h3 h4
    · simp [staleReadTerminal, h1]
    · simp [staleReadTerminal, not_not.mp h1, srt_indexReached_append, ih]
    · simp [staleReadTerminal, not_not.mp h1]
    · simp [staleReadTerminal, not_not.mp h1, ih]
    · simp [staleReadTerminal, not_not.mp h1, srt_indexReached_append, ih]

theorem processJobRun_mfc (jobGen : ℕ) (gens : ℕ → ℕ) (feedFails : ℕ → Bool)
    (valid : Char → Bool) (text : List Char) (indexMap : List (ℕ × ℤ))
    (synthOut : Option (List ℚ × ℕ)) (sampleRate : ℕ) :
    markerFeedsCheckpointed
      (processJobRun jobGen gens feedFails valid text indexMap synthOut sampleRate).1
      false = true := by
  simp only [processJobRun]
  split_ifs with h1 h2
  · simp [markerFeedsCheckpointed]
  · cases synthOut with
    | none => simp [markerFeedsCheckpointed]
    | some p =>
      obtain ⟨durs, numSamples⟩ := p
      simp [markerFeedsCheckpointed]
  · cases synthOut with
    | none => simp [markerFeedsCheckpointed]
    | some p =>
      obtain ⟨durs, numSamples⟩ := p
      simp [markerFeedsCheckpointed, feedLoop_mfc]

theorem processJobRun_srt (jobGen : ℕ) (gens : ℕ → ℕ) (feedFails : ℕ → Bool)
    (valid : Char → Bool) (text : List Char) (indexMap : List (ℕ × ℤ))
    (synthOut : Option (List ℚ × ℕ)) (sampleRate : ℕ) :
    staleReadTerminal jobGen
      (processJobRun jobGen gens feedFails valid text indexMap synthOut sampleRate).1 =
      true := by
  simp only [processJobRun]
  split_ifs with h1 h2
  · simp [staleReadTerminal, h1]
  · cases synthOut with
    | none => simp [staleReadTerminal, not_not.mp h1]
    | some p =>
      obtain ⟨durs, numSamples⟩ := p
      simp [staleReadTerminal, not_not.mp h1, h2]
  · cases synthOut with
    | none => simp [staleReadTerminal, not_not.mp h1]
    | some p =>
      obtain ⟨durs, numSamples⟩ := p
      simp [staleReadTerminal, not_not.mp h1, not_not.mp h2, feedLoop_srt]

/-- If a trace passes `staleReadTerminal`, then nothing follows any read
of a generation different from `jobGen`. -/
theorem staleReadTerminal_spec (jobGen : ℕ) :
    ∀ (tr : List Act), staleReadTerminal jobGen tr = true →
      ∀ pre g post, tr = pre ++ Act.read g :: post → g ≠ jobGen → post = [] := by
  intro tr
  induction tr with
  | nil =>
    intro _ pre g post hEq _
    exact absurd hEq (by simp)
  | cons a tr' ih =>
    intro h pre g post hEq hg
    cases pre with
    | nil =>
      simp only [List.nil_append] at hEq
      injection hEq with h1 h2
      subst h1
      subst h2
      simp only [staleReadTerminal, if_neg hg] at h
      exact List.isEmpty_iff.mp h
    | cons b pre' =>
      simp only [List.cons_append] at hEq
      injection hEq with h1 h2
      subst h1
      cases a with
      | read g' =>
        by_cases hg' : g' = jobGen
        · rw [show staleReadTerminal jobGen (Act.read g' :: tr') =
              (if g' = jobGen then staleReadTerminal jobGen tr' else tr'.isEmpty) from rfl,
            if_pos hg'] at h
          exact ih h pre' g post h2 hg
        · rw [show staleReadTerminal jobGen (Act.read g' :: tr') =
              (if g' = jobGen then staleReadTerminal jobGen tr' else tr'.isEmpty) from rfl,
            if_neg hg'] at h
          rw [h2] at h
          simp at h
      | synth => exact ih h pre' g post h2 hg
      | feed lo hi cbs => exact ih h pre' g post h2 hg
      | indexReached i => exact ih h pre' g post h2 hg
      | idle => exact ih h pre' g post h2 hg
      | doneSpeaking => exact ih h pre' g post h2 hg
      | logError => exact ih h pre' g post h2 hg

/-- Counterexample to claim C2 as stated: with a current generation
throughout, text `"AB"`, one marker at (remapped) offset 1, durations
`[0.5, 0.5]`, sample rate 100 and 100 audio samples, the job performs the
marker feed at byte 100 and then the trailing remainder feed with no
generation re-read in between, so the generation is not re-read before
every feed call to the sink. -/
theorem C2_checkpoint_counterexample :
    checkpointedFeeds
      (processJobRun 0 (fun _ => 0) (fun _ => false) (fun _ => true)
        ['A', 'B'] [(1, 7)] (some ([(1 : ℚ), 1], 200)) 100).1 false = false := by
  have h200 : targetByte (cumsum [(1 : ℚ), 1]) 200 400 1 = 200 := by
    norm_num [targetByte, targetTime, pyInt, cumsum, List.scanl]
  have htrace : (processJobRun 0 (fun _ => 0) (fun _ => false) (fun _ => true)
      ['A', 'B'] [(1, 7)] (some ([(1 : ℚ), 1], 200)) 100).1 =
      [Act.read 0, Act.synth, Act.read 0, Act.read 0, Act.feed 0 200 [7],
        Act.feed 200 (2 * ((200 : ℕ) : ℤ)) [], Act.idle, Act.doneSpeaking] := by
    simp only [processJobRun, deliveryUnits, List.map_cons, List.map_nil]
    norm_num [sanitize, sanitizeLoop, List.getD, List.get?]
    rw [h200]
    simp [Finset.sort_singleton, feedLoop]
  rw [htrace]
  decide

/-- Claim C2 (amended): the generation is re-read under the lock before
every delivery-loop feed (every feed carrying marker callbacks); the
trailing remainder feed is issued without a dedicated re-read.  Whenever
any re-read observes a generation different from the job's, the job
abandons immediately: the stale read is the last action, so no further
audio is fed (including the trailing remainder) and no further marker
callbacks are fired or attached. -/
theorem C2_checkpoint_amended (jobGen : ℕ) (gens : ℕ → ℕ) (feedFails : ℕ → Bool)
    (valid : Char → Bool) (text : List Char) (indexMap : List (ℕ × ℤ))
    (synthOut : Option (List ℚ × ℕ)) (sampleRate : ℕ) :
    markerFeedsCheckpointed
      (processJobRun jobGen gens feedFails valid text indexMap synthOut sampleRate).1
      false = true ∧
    ∀ pre g post,
      (processJobRun jobGen gens feedFails valid text indexMap synthOut sampleRate).1 =
        pre ++ Act.read g :: post → g ≠ jobGen → post = [] :=
  ⟨processJobRun_mfc jobGen gens feedFails valid text indexMap synthOut sampleRate,
    fun pre g post hEq hg =>
      staleReadTerminal_spec jobGen _
        (processJobRun_srt jobGen gens feedFails valid text indexMap synthOut sampleRate)
        pre g post hEq hg⟩

/-- Witness for the amended C2 at a concrete input (stale generation at
the first checkpoint). -/
theorem C2_checkpoint_amended_witness :
    markerFeedsCheckpointed
      (processJobRun 0 (fun _ => 1) (fun _ => false) (fun _ => true) [] [] none 100).1
      false = true :=
  (C2_checkpoint_amended 0 (fun _ => 1) (fun _ => false) (fun _ => true) [] [] none 100).1

/-- Claim C5: a job enqueued under generation `g` that is dequeued after
`cancel` bumped the generation to `g + 1` is discarded by the worker: the
dequeue-time check is the only action, so no synthesize call is made, no
audio is fed, and no marker notification fires for that job. -/
theorem C5_stale_job_discarded (valid : Char → Bool) (sampleRate g : ℕ)
    (env : JobEnv) (job : Job) (hjob : job.gen = g) (hread : env.gens 0 = cancelGen g) :
    workerStep valid sampleRate env job = [Act.read (cancelGen g)] ∧
    Act.synth ∉ workerStep valid sampleRate env job ∧
    (∀ lo hi cbs, Act.feed lo hi cbs ∉ workerStep valid sampleRate env job) ∧
    (∀ i, Act.indexReached i ∉ workerStep valid sampleRate env job) := by
  have hne : job.gen ≠ env.gens 0 := by
    rw [hjob, hread]
    exact fun hEq => by simp [cancelGen] at hEq
  have hw : workerStep valid sampleRate env job = [Act.read (cancelGen g)] := by
    rw [show workerStep valid sampleRate env job =
        (if job.gen ≠ env.gens 0 then [Act.read (env.gens 0)]
         else Act.read (env.gens 0) ::
           ((processJobRun job.gen (fun k => env.gens (k + 1)) env.feedFails valid
             job.text job.indexMap env.synthOut sampleRate).1 ++
            if (processJobRun job.gen (fun k => env.gens (k + 1)) env.feedFails valid
              job.text job.indexMap env.synthOut sampleRate).2 then
              [Act.logError, Act.doneSpeaking] else [])) from rfl,
      if_pos hne, hread]
  exact ⟨hw, by rw [hw]; simp, fun lo hi cbs => by rw [hw]; simp,
    fun i => by rw [hw]; simp⟩

/-- Witness for C5 with a concrete stale job. -/
theorem C5_stale_job_discarded_witness :
    (Job.mk 0 ['A'] [] "M1" 27 5).gen = 0 ∧
    (JobEnv.mk (fun _ => 1) (fun _ => false) none).gens 0 = cancelGen 0 ∧
    workerStep (fun _ => true) 100 (JobEnv.mk (fun _ => 1) (fun _ => false) none)
      (Job.mk 0 ['A'] [] "M1" 27 5) = [Act.read (cancelGen 0)] :=
  ⟨rfl, rfl,
    (C5_stale_job_discarded (fun _ => true) 100 0 (JobEnv.mk (fun _ => 1) (fun _ => false)
      none) (Job.mk 0 ['A'] [] "M1" 27 5) rfl rfl).1⟩

/-- Claim C8: when the pipeline of a current job raises (in particular
when the synthesize call raises), the worker logs the error, emits a
done-speaking notification, and goes on to process the remaining queued
jobs. -/
theorem C8_failure_logged_and_continues (valid : Char → Bool) (sampleRate : ℕ)
    (env : JobEnv) (job : Job) (rest : List (JobEnv × Job))
    (hcur : env.gens 0 = job.gen) :
    ((processJobRun job.gen (fun k => env.gens (k + 1)) env.feedFails valid job.text
        job.indexMap env.synthOut sampleRate).2 = true →
      workerRun valid sampleRate ((env, job) :: rest) =
        (Act.read job.gen ::
          ((processJobRun job.gen (fun k => env.gens (k + 1)) env.feedFails valid
            job.text job.indexMap env.synthOut sampleRate).1 ++
            [Act.logError, Act.doneSpeaking])) ++
          workerRun valid sampleRate rest) ∧
    (env.synthOut = none → env.gens 1 = job.gen →
      workerRun valid sampleRate ((env, job) :: rest) =
        Act.read job.gen :: Act.read job.gen :: Act.synth :: Act.logError ::
          Act.doneSpeaking :: workerRun valid sampleRate rest) := by
  constructor
  · intro hr
    simp [workerRun, workerStep, hcur, hr]
  · intro hnone hg1
    simp [workerRun, workerStep, processJobRun, hnone, hcur, hg1]

/-- Witness for C8: a concrete failing job followed by an empty queue. -/
theorem C8_failure_logged_and_continues_witness :
    workerRun (fun _ => true) 100
      [(JobEnv.mk (fun _ => 0) (fun _ => false) none, Job.mk 0 ['A'] [] "M1" 27 5)] =
      Act.read 0 :: Act.read 0 :: Act.synth :: Act.logError :: Act.doneSpeaking ::
        workerRun (fun _ => true) 100 [] :=
  (C8_failure_logged_and_continues (fun _ => true) 100
    (JobEnv.mk (fun _ => 0) (fun _ => false) none) (Job.mk 0 ['A'] [] "M1" 27 5) []
    rfl).2 rfl rfl

end Supertonic
